import Mathlib

/-!
# Verification of the litellmjs provider-resolution and format-normalization layer

Shallow embedding of the repository's core:

* `src/litellm.js` (router/registry: `parseModelString`, `registerProvider`,
  `getProviderTypeForModel`, `getProxyForModel`, `getProviderForModel`,
  `_processChunk`, `createProxy`),
* `src/providers/anthropic.js` (`_transformMessages`, `_transformOptions`,
  `_convertResponseToOpenAIFormat`, `_convertStreamChunkToOpenAIFormat`,
  `_processChunk`),
* `src/providers/openai.js` (`supportsModel`, `_processChunk`).

JavaScript strings are Lean `String`s; the JS built-ins used by the source
(`String.prototype.split` with a one-character separator, `trim`,
`startsWith`, the anchored `replace(/^data: /, '')`, `Array.prototype.join`)
are embedded as character-list functions with the same semantics
(`jsSplit`, `jsTrim`, `jsStartsWith`, `jsReplaceStart`, `joinWithNewlines`).
`JSON.parse` / `JSON.stringify` are JS runtime built-ins external to the
repository; they are abstracted as parameters `jparse : String → Option J`
(`none` models a parse exception) and `stringify : J → String` over an
abstract JSON value type `J`.  JS falsiness of strings ("" is falsy) is
embedded explicitly (`jsOr`, `jsOrOpt`).  Methods that `throw` are embedded
as `Except`-valued functions.
-/

namespace LitellmJs

/-! ## Character-level embeddings of the JS string built-ins -/

/-- JS whitespace (`String.prototype.trim` strips WhiteSpace/LineTerminator);
modelled by `Char.isWhitespace`. -/
def isJsWhitespace (c : Char) : Bool := c.isWhitespace

/-- Strip leading JS whitespace from a character list. -/
def trimLeftChars (l : List Char) : List Char := l.dropWhile isJsWhitespace

/-- Strip trailing JS whitespace from a character list. -/
def trimRightChars (l : List Char) : List Char := (l.reverse.dropWhile isJsWhitespace).reverse

/-- Embedding of JS `s.trim()`. -/
def jsTrim (s : String) : String := ⟨trimRightChars (trimLeftChars s.data)⟩

/-- Embedding of JS `s.startsWith(pre)`. -/
def jsStartsWith (s pre : String) : Bool := pre.data.isPrefixOf s.data

/-- Embedding of JS `s.replace(/^pre /, '')` for a literal start-anchored
pattern: if `s` starts with `pre` the prefix is removed, otherwise `s` is
returned unchanged. -/
def jsReplaceStart (s pre : String) : String :=
  if jsStartsWith s pre then ⟨s.data.drop pre.data.length⟩ else s

/-- Character-level split on a separator, with the semantics of JS
`String.prototype.split` with a one-character separator:
`"".split(c) = [""]`, `"a/".split('/') = ["a", ""]`, etc. -/
def splitChars (sep : Char) : List Char → List (List Char)
  | [] => [[]]
  | c :: cs =>
    let rest := splitChars sep cs
    if c = sep then [] :: rest
    else
      match rest with
      | [] => [[c]]
      | w :: ws => (c :: w) :: ws

/-- Embedding of JS `s.split(sep)` for a one-character separator. -/
def jsSplit (s : String) (sep : Char) : List String :=
  (splitChars sep s.data).map (fun cs => ⟨cs⟩)

/-- Embedding of JS `lines.join('\n')`. -/
def joinWithNewlines : List String → String
  | [] => ""
  | [l] => l
  | l :: ls => l ++ "\n" ++ joinWithNewlines ls

/-- Embedding of JS `s.toLowerCase()` (per-character lowercasing; the
repository only ever lowercases ASCII provider-type strings). -/
def jsToLower (s : String) : String := ⟨s.data.map Char.toLower⟩

/-- Embedding of JS `a || b` on strings (`""` is falsy). -/
def jsOr (a b : String) : String := if a = "" then b else a

/-- Embedding of JS `a || b` where `a` is a nullable string (`null` and `""`
are falsy). -/
def jsOrOpt (a : Option String) (b : String) : String :=
  match a with
  | some x => if x = "" then b else x
  | none => b

/-! ## Router / Registry (`src/litellm.js`, class `LiteLLM`) -/

/-- Result of `LiteLLM.parseModelString`: `{provider, model}` where
`provider` is `null` or a lowercased provider-type string. -/
structure ParsedModel where
  provider : Option String
  model : String
deriving DecidableEq, Repr

/-- Embedding of `LiteLLM.parseModelString`: splits on `'/'`; the two-part
form with both parts truthy (non-empty) yields
`{provider: parts[0].toLowerCase(), model: parts[1]}`; every other input
(including the empty, falsy, string) yields `{provider: null, model: input}`.
Total — the JS method never throws on a string input. -/
def parseModelString (modelString : String) : ParsedModel :=
  if modelString = "" then ⟨none, modelString⟩
  else
    let parts := jsSplit modelString '/'
    if parts.length = 2 ∧ parts.getD 0 "" ≠ "" ∧ parts.getD 1 "" ≠ "" then
      ⟨some (jsToLower (parts.getD 0 "")), parts.getD 1 ""⟩
    else ⟨none, modelString⟩

/-- The two concrete provider classes the registry can instantiate
(`OpenAIProvider` in `src/providers/openai.js`, `AnthropicProvider` in
`src/providers/anthropic.js`). -/
inductive ProviderKind where
  | openai
  | anthropic
deriving DecidableEq, Repr

/-- Embedding of the per-vendor `supportsModel` predicates:
`OpenAIProvider.supportsModel` (`gpt-`/`text-` prefix or `dall-e-3`) and
`AnthropicProvider.supportsModel` (`claude-` prefix). -/
def supportsModel (k : ProviderKind) (model : String) : Bool :=
  match k with
  | .openai => jsStartsWith model "gpt-" || jsStartsWith model "text-" || model == "dall-e-3"
  | .anthropic => jsStartsWith model "claude-"

/-- Proxy configuration as stored by `LiteLLM.registerProxy` from
`LiteLLM.createProxy` (`{name, models, url, headers, provider, proxyModel}`;
the `provider` closure is represented by the `Adapter.proxy` constructor
carrying this record). -/
structure ProxyConfig where
  name : String
  models : List String
  url : String
  headers : List (String × String)
  proxyModel : Option String
deriving DecidableEq, Repr

/-- An adapter object as returned by resolution: either the closure created
by `createProxy` for a registered proxy (it carries `isProxy: true` and its
configuration), or a provider instance stored in `this.providers` under a
type key. -/
inductive Adapter where
  | proxy (cfg : ProxyConfig)
  | registered (key : String) (p : ProviderKind)
deriving DecidableEq, Repr

/-- `true` exactly on proxy adapters (the JS objects with `isProxy: true`). -/
def Adapter.isProxyAdapter : Adapter → Bool
  | .proxy _ => true
  | .registered _ _ => false

/-- The registry state of a `LiteLLM` instance.  `providers` is the
string-keyed JS object `this.providers` as an insertion-ordered association
list; `proxies` is the array `this.proxies`.  `modelPrefixes` —
Modelled from the spec: the `MODEL_PREFIXES` table is imported from
`types.js`, which is missing from `src/`; per spec §4.1 step 3 it is "a
static ordered table of known name-prefixes to provider types", kept here
as an abstract ordered `prefix ↦ provider-type` list iterated first-match
(`Object.entries` order). -/
structure LiteLLM where
  providers : List (String × ProviderKind)
  proxies : List ProxyConfig
  modelPrefixes : List (String × String)
deriving Repr

/-- Lookup `this.providers[key]` in the association-list embedding of the
JS object. -/
def lookupProvider (ps : List (String × ProviderKind)) (k : String) : Option ProviderKind :=
  (ps.find? (fun e => e.1 = k)).map (fun e => e.2)

/-- Embedding of the JS object assignment `this.providers[key] = v`:
replaces in place when the key exists, otherwise appends (JS string-keyed
property insertion order). -/
def objInsert (m : List (String × ProviderKind)) (k : String) (v : ProviderKind) :
    List (String × ProviderKind) :=
  if m.any (fun e => e.1 = k) then m.map (fun e => if e.1 = k then (k, v) else e)
  else m ++ [(k, v)]

/-- Error value of the `LiteLLMError` class from `src/client.js`
(`message`, HTTP-like `status`; the open `data` payload is not used by the
registry paths embedded here). -/
structure LiteLLMError where
  message : String
  status : Nat
deriving DecidableEq, Repr

/-- Modelled from the spec: `PROVIDER_TYPES.OPENAI` is defined in
`types.js`, which is missing from `src/`; the registration API (spec §6)
and the repository's callers register with the literal `'openai'`. -/
def PROVIDER_TYPES_OPENAI : String := "openai"

/-- Modelled from the spec: `PROVIDER_TYPES.ANTHROPIC` is defined in
`types.js`, which is missing from `src/`; the registration API (spec §6)
and the repository's callers register with the literal `'anthropic'`. -/
def PROVIDER_TYPES_ANTHROPIC : String := "anthropic"

/-- Embedding of `LiteLLM.registerProvider` (current `src/litellm.js`,
`part_000` lines 51–69): lowercases the type, instantiates the matching
provider class or throws `LiteLLMError(..., 400)`, stores the instance
under the lowercased key and returns it.  A throw is an `Except.error`; in
that case no assignment to `this.providers` was reached, so the registry
state is unchanged (no new state is produced). -/
def registerProvider (L : LiteLLM) (type : String) :
    Except LiteLLMError (LiteLLM × ProviderKind) :=
  let providerType := jsToLower type
  if providerType = PROVIDER_TYPES_OPENAI then
    .ok ({ L with providers := objInsert L.providers providerType .openai }, .openai)
  else if providerType = PROVIDER_TYPES_ANTHROPIC then
    .ok ({ L with providers := objInsert L.providers providerType .anthropic }, .anthropic)
  else
    .error ⟨"Unsupported provider type: " ++ type, 400⟩

/-- Embedding of `LiteLLM.getProviderTypeForModel`: first entry of the
prefix table whose prefix starts the model name. -/
def getProviderTypeForModel (L : LiteLLM) (model : String) : Option String :=
  (L.modelPrefixes.find? (fun e => jsStartsWith model e.1)).map (fun e => e.2)

/-- The proxy-matching test from `LiteLLM.getProxyForModel`:
`proxy.models.includes(model) || proxy.models.includes(modelString) ||
proxy.models.includes('*')`. -/
def proxyMatches (modelString model : String) (cfg : ProxyConfig) : Bool :=
  cfg.models.contains model || cfg.models.contains modelString || cfg.models.contains "*"

/-- Embedding of `LiteLLM.getProxyForModel`: parses the identifier, scans
`this.proxies` in registration order, and for the first match returns the
proxy's provider closure together with
`actualModel: proxy.proxyModel || model` (JS falsy-or). -/
def getProxyForModel (L : LiteLLM) (modelString : String) : Option (Adapter × String) :=
  let parsed := parseModelString modelString
  match L.proxies.find? (proxyMatches modelString parsed.model) with
  | some proxy => some (.proxy proxy, jsOrOpt proxy.proxyModel parsed.model)
  | none => none

/-- Result shape of `LiteLLM.getProviderForModel`:
`{provider (possibly null), actualModel}`. -/
structure ResolvedRoute where
  provider : Option Adapter
  actualModel : String
deriving DecidableEq, Repr

/-- The `supportsModel` fallback loop of `getProviderForModel`: iterate
`Object.entries(this.providers)` in insertion order and return the first
provider whose predicate accepts the model. -/
def resolveBySupport (L : LiteLLM) (m : String) : ResolvedRoute :=
  match L.providers.find? (fun e => supportsModel e.2 m) with
  | some e => ⟨some (.registered e.1 e.2), m⟩
  | none => ⟨none, m⟩

/-- The prefix-table step of `getProviderForModel`: if the first matching
prefix names a registered provider type use it, otherwise fall through to
the `supportsModel` loop. -/
def resolveByPrefixOrSupport (L : LiteLLM) (m : String) : ResolvedRoute :=
  match getProviderTypeForModel L m with
  | some pt =>
    match lookupProvider L.providers pt with
    | some k => ⟨some (.registered pt k), m⟩
    | none => resolveBySupport L m
  | none => resolveBySupport L m

/-- Embedding of `LiteLLM.getProviderForModel` (current `src/litellm.js`,
`part_000` lines 124–161): proxy first; then the explicit
`provider/model` prefix if that provider is registered; then the
model-name prefix table; then each provider's `supportsModel`; else
`{provider: null, actualModel}`.  `actualModel || modelString` (JS
falsy-or) is embedded by `jsOr`. -/
def getProviderForModel (L : LiteLLM) (modelString : String) : ResolvedRoute :=
  let parsed := parseModelString modelString
  match getProxyForModel L modelString with
  | some (a, m) => ⟨some a, m⟩
  | none =>
    let fallbackModel := jsOr parsed.model modelString
    match parsed.provider with
    | some ep =>
      match lookupProvider L.providers ep with
      | some k => ⟨some (.registered ep k), parsed.model⟩
      | none => resolveByPrefixOrSupport L fallbackModel
    | none => resolveByPrefixOrSupport L fallbackModel

/-- Embedding of line 264 of `createProxy` in `src/litellm.js`
(`model: proxyModel || completionOptions.model`): the model the proxy
closure's `completion` puts in the outgoing request body. -/
def proxyCompletionModel (proxyModel : Option String) (requestedModel : String) : String :=
  jsOrOpt proxyModel requestedModel

/-- The "claimed by a registered provider" condition of the resolver
fallbacks: the model-name prefix table maps the name to a registered
provider type, or some registered provider's `supportsModel` accepts it. -/
def providerClaims (L : LiteLLM) (m : String) : Bool :=
  (match getProviderTypeForModel L m with
   | some pt => (lookupProvider L.providers pt).isSome
   | none => false) ||
  L.providers.any (fun e => supportsModel e.2 m)

/-! ## Anthropic provider adapter (`src/providers/anthropic.js`)

The adapter is parameterized by an abstract JSON value type `J` together
with `stringify : J → String` (JS `JSON.stringify`) and
`jparse : String → Option J` (JS `JSON.parse`; `none` models a thrown
`SyntaxError`), since those are JS runtime built-ins external to the
repository. -/

/-- An OpenAI-style `function_call` value (`{name, arguments}`, arguments a
JSON text). -/
structure FunctionCall where
  name : String
  arguments : String
deriving DecidableEq, Repr

/-- A `function_call_result` value on a user message (`{name, content}`). -/
structure FunctionCallResult where
  name : String
  content : String
deriving DecidableEq, Repr

/-- A canonical request message.  `content` is text (the claims under
verification only exercise textual content). -/
structure Message where
  role : String
  content : String
  function_call : Option FunctionCall := none
  function_call_result : Option FunctionCallResult := none
deriving DecidableEq, Repr

/-- Content of a message produced by `_transformMessages`: either plain
text carried over, or the one-element `[{type: 'tool_use', name, input}]`
content array built for an assistant `function_call`. -/
inductive OutContent (J : Type) where
  | text (s : String)
  | toolUseBlock (name : String) (input : J)
deriving DecidableEq, Repr

/-- A message in the Anthropic-bound request body (the `tool` messages also
carry a `name`). -/
structure OutMessage (J : Type) where
  role : String
  name : Option String := none
  content : OutContent J
deriving DecidableEq, Repr

/-- Canonical completion options (`CompletionRequest` of spec §3) as far as
the Anthropic transformation reads them.  The open-map `additional_params`
and the `tools`/`functions` declarations are outside this embedding: they
do not interact with the system-message or message-sequence logic under
verification. -/
structure CompletionOptions where
  model : String
  messages : List Message
  stream : Bool := false
  max_tokens : Option Nat := none
  stop : Option (List String) := none
deriving DecidableEq, Repr

/-- The Anthropic-bound request body assembled by `_transformOptions`
(minus the tool declarations and open-map merges, see
`CompletionOptions`). -/
structure AnthropicRequest (J : Type) where
  model : String
  messages : List (OutMessage J)
  stream : Bool
  system : Option String := none
  max_tokens : Nat
  stop : List String
deriving DecidableEq, Repr

/-- The messages pushed for one input message by the loop body of
`AnthropicProvider._transformMessages`: `system` messages push nothing
(they only update the unused local `systemMessage`); `user`/`assistant`
messages push `{role, content}`, then a `tool` message for a user
`function_call_result`, then a `tool_use` content block for an assistant
`function_call` (whose `arguments` go through `JSON.parse` — a parse
failure throws); any other role pushes nothing. -/
def transformOneMessage {J : Type} (jparse : String → Option J) (msg : Message) :
    Except String (List (OutMessage J)) :=
  if msg.role = "system" then .ok []
  else if msg.role = "user" ∨ msg.role = "assistant" then
    let base : OutMessage J := ⟨msg.role, none, .text msg.content⟩
    let toolResult : List (OutMessage J) :=
      if msg.role = "user" then
        match msg.function_call_result with
        | some r => [⟨"tool", some r.name, .text r.content⟩]
        | none => []
      else []
    match
      (if msg.role = "assistant" then
        match msg.function_call with
        | some fc =>
          match jparse fc.arguments with
          | some j => Except.ok [(⟨"assistant", none, .toolUseBlock fc.name j⟩ : OutMessage J)]
          | none => Except.error ("JSON.parse failed on: " ++ fc.arguments)
        | none => Except.ok []
      else Except.ok []) with
    | .ok toolUse => .ok ([base] ++ toolResult ++ toolUse)
    | .error e => .error e
  else .ok []

/-- Embedding of `AnthropicProvider._transformMessages`: the loop pushes
the per-message groups in input order; a `JSON.parse` throw aborts the
whole transformation. -/
def transformMessages {J : Type} (jparse : String → Option J) :
    List Message → Except String (List (OutMessage J))
  | [] => .ok []
  | m :: rest =>
    match transformOneMessage jparse m with
    | .error e => .error e
    | .ok hd =>
      match transformMessages jparse rest with
      | .error e => .error e
      | .ok tl => .ok (hd ++ tl)

/-- Embedding of `AnthropicProvider._transformOptions`: transforms the
messages, sets `stream` (falsy default `false`), merges the system
messages into a top-level `system` field **only when there are more than
one** (`systemMessages.length > 1`), applies the mandatory
`max_tokens` default 2048 (`options.max_tokens || 2048`, so a 0 is also
replaced) and the `stop` default, and carries the model through. -/
def transformOptions {J : Type} (jparse : String → Option J) (opts : CompletionOptions) :
    Except String (AnthropicRequest J) :=
  match transformMessages jparse opts.messages with
  | .error e => .error e
  | .ok messages =>
    let systemMessages := opts.messages.filter (fun m => m.role = "system")
    let system : Option String :=
      if systemMessages.length > 1 then
        some (joinWithNewlines (systemMessages.map (fun m => m.content)))
      else none
    .ok {
      model := opts.model
      messages := messages
      stream := opts.stream
      system := system
      max_tokens := match opts.max_tokens with
        | some n => if n = 0 then 2048 else n
        | none => 2048
      stop := opts.stop.getD ["stop", "max_tokens"]
    }

/-- A content block of an Anthropic response (`other` covers block types
the converter ignores). -/
inductive AnthropicBlock (J : Type) where
  | text (t : String)
  | toolUse (name : String) (input : J)
  | other (tag : String)
deriving DecidableEq, Repr

/-- Token usage of an Anthropic response (`input_tokens`/`output_tokens`,
each possibly absent). -/
structure AnthropicUsage where
  input_tokens : Option Nat := none
  output_tokens : Option Nat := none
deriving DecidableEq, Repr

/-- An Anthropic `/messages` response as far as
`_convertResponseToOpenAIFormat` reads it (`content` is `none` when absent
or not an array). -/
structure AnthropicResponse (J : Type) where
  content : Option (List (AnthropicBlock J)) := none
  stop_reason : Option String := none
  usage : Option AnthropicUsage := none
deriving DecidableEq, Repr

/-- The canonical assistant message of a converted response. -/
structure RespMessage where
  role : String
  content : Option String
  function_call : Option FunctionCall := none
deriving DecidableEq, Repr

/-- One canonical choice. -/
structure Choice where
  index : Nat
  message : RespMessage
  finish_reason : String
deriving DecidableEq, Repr

/-- Canonical usage block (`total = prompt + completion`). -/
structure UsageOut where
  prompt_tokens : Nat
  completion_tokens : Nat
  total_tokens : Nat
deriving DecidableEq, Repr

/-- A canonical (OpenAI-shape) response.  The synthetic `id` and the
wall-clock `created` timestamp are nondeterministic
(`Date.now()`/`Math.random()`) and are not part of the deterministic
embedding. -/
structure CanonicalResponse where
  object : String
  model : String
  choices : List Choice
  usage : UsageOut
deriving DecidableEq, Repr

/-- The loop body of `_convertResponseToOpenAIFormat` over the content
blocks: a `text` block overwrites `content`, a `tool_use` block overwrites
`functionCall` (arguments are `JSON.stringify`-ed), anything else is
ignored. -/
def blockStep {J : Type} (stringify : J → String)
    (acc : Option String × Option FunctionCall) (b : AnthropicBlock J) :
    Option String × Option FunctionCall :=
  match b with
  | .text t => (some t, acc.2)
  | .toolUse n i => (acc.1, some ⟨n, stringify i⟩)
  | .other _ => acc

/-- The text of the last `text` block of a block list. -/
def lastTextBlock {J : Type} (bs : List (AnthropicBlock J)) : Option String :=
  (bs.filterMap (fun b => match b with | .text t => some t | _ => none)).getLast?

/-- The text of the first `text` block of a block list. -/
def firstTextBlock {J : Type} (bs : List (AnthropicBlock J)) : Option String :=
  (bs.filterMap (fun b => match b with | .text t => some t | _ => none)).head?

/-- The `function_call` derived from the last `tool_use` block of a block
list. -/
def lastToolUseBlock {J : Type} (stringify : J → String) (bs : List (AnthropicBlock J)) :
    Option FunctionCall :=
  (bs.filterMap (fun b => match b with
    | .toolUse n i => some (⟨n, stringify i⟩ : FunctionCall)
    | _ => none)).getLast?

/-- Whether a block list contains a `tool_use` block. -/
def hasToolUseBlock {J : Type} (bs : List (AnthropicBlock J)) : Bool :=
  bs.any (fun b => match b with | .toolUse _ _ => true | _ => false)

/-- Whether a block list contains a `text` block. -/
def hasTextBlock {J : Type} (bs : List (AnthropicBlock J)) : Bool :=
  bs.any (fun b => match b with | .text _ => true | _ => false)

/-- Embedding of `AnthropicProvider._convertResponseToOpenAIFormat`:
folds over the content blocks (last `text` wins for `content`, last
`tool_use` wins for `function_call`), maps `stop_reason`
(`tool_use ↦ function_call`, `max_tokens ↦ length`, anything else —
including absent — `↦ stop`), nulls `content` whenever a `function_call`
is present, and renames the usage fields with default 0 and
`total = prompt + completion`. -/
def convertResponseToOpenAIFormat {J : Type} (stringify : J → String)
    (response : AnthropicResponse J) (options : CompletionOptions) : CanonicalResponse :=
  let cf : Option String × Option FunctionCall :=
    match response.content with
    | some blocks => blocks.foldl (blockStep stringify) (none, none)
    | none => (none, none)
  let finishReason : String :=
    if response.stop_reason = some "tool_use" then "function_call"
    else if response.stop_reason = some "max_tokens" then "length"
    else "stop"
  let message : RespMessage :=
    match cf.2 with
    | some fc => ⟨"assistant", none, some fc⟩
    | none => ⟨"assistant", cf.1, none⟩
  let it : Nat := (response.usage.bind (fun u => u.input_tokens)).getD 0
  let ot : Nat := (response.usage.bind (fun u => u.output_tokens)).getD 0
  { object := "chat.completion"
    model := options.model
    choices := [⟨0, message, finishReason⟩]
    usage := ⟨it, ot, it + ot⟩ }

/-- The `delta` payload of an Anthropic `content_block_delta` stream
event.  A `tool_use` delta's `name` and `input` may each be absent
(the code falls back to `''`). -/
inductive AnthropicDelta (J : Type) where
  | textDelta (text : String)
  | toolUseDelta (name : Option String) (input : Option J)
  | otherDelta (tag : String)
deriving DecidableEq, Repr

/-- An Anthropic SSE stream event as far as
`_convertStreamChunkToOpenAIFormat` inspects it. -/
inductive AnthropicStreamEvent (J : Type) where
  | contentBlockStart
  | contentBlockDelta (delta : AnthropicDelta J)
  | contentBlockStop
  | messageStop
  | otherEvent (tag : String)
deriving DecidableEq, Repr

/-- The incremental delta of a canonical stream chunk. -/
structure StreamDelta where
  content : Option String := none
  function_call : Option FunctionCall := none
deriving DecidableEq, Repr

/-- One choice of a canonical stream chunk. -/
structure StreamChoice where
  index : Nat
  delta : StreamDelta
  finish_reason : Option String
deriving DecidableEq, Repr

/-- A canonical stream chunk (again minus the nondeterministic `id` and
`created`). -/
structure StreamChunk where
  object : String
  model : String
  choices : List StreamChoice
deriving DecidableEq, Repr

/-- Embedding of `AnthropicProvider._convertStreamChunkToOpenAIFormat`:
starts from the default envelope (empty delta, `finish_reason: null`);
`content_block_start` and unrecognized events return it unchanged; a
`text_delta` with truthy text fills `delta.content`; a `tool_use` delta
fills `delta.function_call` (name `|| ''`, input stringified or `''`) and
sets `finish_reason: 'function_call'`; `content_block_stop` and
`message_stop` set `finish_reason: 'stop'`. -/
def convertStreamChunkToOpenAIFormat {J : Type} (stringify : J → String)
    (chunk : AnthropicStreamEvent J) (options : CompletionOptions) : StreamChunk :=
  let base : StreamChunk := ⟨"chat.completion.chunk", options.model, [⟨0, ⟨none, none⟩, none⟩]⟩
  match chunk with
  | .contentBlockStart => base
  | .contentBlockDelta d =>
    match d with
    | .textDelta t =>
      if t ≠ "" then ⟨base.object, base.model, [⟨0, ⟨some t, none⟩, none⟩]⟩ else base
    | .toolUseDelta n i =>
      ⟨base.object, base.model,
        [⟨0, ⟨none, some ⟨n.getD "",
          match i with | some j => stringify j | none => ""⟩⟩, some "function_call"⟩]⟩
    | .otherDelta _ => base
  | .contentBlockStop => ⟨base.object, base.model, [⟨0, ⟨none, none⟩, some "stop"⟩]⟩
  | .messageStop => ⟨base.object, base.model, [⟨0, ⟨none, none⟩, some "stop"⟩]⟩
  | .otherEvent _ => base

/-! ## Chunk decoder (`_processChunk`) -/

/-- The shared line pipeline of every `_processChunk` copy: split the
fragment on `'\n'`, keep the lines whose trimmed form starts with
`'data:'`, and map each kept line through the start-anchored
`replace(/^data: /, '')` followed by `trim()`. -/
def extractDataLines (chunk : String) : List String :=
  ((jsSplit chunk '\n').filter (fun l => jsStartsWith (jsTrim l) "data:")).map
    (fun l => jsTrim (jsReplaceStart l "data: "))

/-- The per-line loop of `LiteLLM._processChunk` in `src/litellm.js` and of
`OpenAIProvider._processChunk` in `src/providers/openai.js`: the
`'[DONE]'` sentinel `return`s (stops the whole fragment), a falsy (empty)
line yields nothing, a parse failure is caught and skipped, a parsed value
is yielded. -/
def decodeLines {J : Type} (jparse : String → Option J) : List String → List J
  | [] => []
  | l :: ls =>
    if l = "[DONE]" then []
    else if l = "" then decodeLines jparse ls
    else
      match jparse l with
      | some v => v :: decodeLines jparse ls
      | none => decodeLines jparse ls

/-- The per-line loop of `AnthropicProvider._processChunk` in
`src/providers/anthropic.js`: identical to `decodeLines` except that the
`'[DONE]'` sentinel `continue`s — it is skipped and the following lines
are still decoded. -/
def decodeLinesAnthropic {J : Type} (jparse : String → Option J) : List String → List J
  | [] => []
  | l :: ls =>
    if l = "[DONE]" then decodeLinesAnthropic jparse ls
    else if l = "" then decodeLinesAnthropic jparse ls
    else
      match jparse l with
      | some v => v :: decodeLinesAnthropic jparse ls
      | none => decodeLinesAnthropic jparse ls

/-- `LiteLLM._processChunk` / `OpenAIProvider._processChunk` on a whole
text fragment. -/
def processChunk {J : Type} (jparse : String → Option J) (chunk : String) : List J :=
  decodeLines jparse (extractDataLines chunk)

/-- `AnthropicProvider._processChunk` on a whole text fragment. -/
def processChunkAnthropic {J : Type} (jparse : String → Option J) (chunk : String) : List J :=
  decodeLinesAnthropic jparse (extractDataLines chunk)

/-- A data-line payload that survives the line pipeline untouched:
non-empty, no leading/trailing JS whitespace, and no embedded newline. -/
def edgeClean (p : String) : Bool :=
  match p.data.head?, p.data.getLast? with
  | some c, some d =>
    !isJsWhitespace c && !isJsWhitespace d && !(p.data.contains '\n')
  | _, _ => false

/-- An `edgeClean` payload that is also not the termination sentinel. -/
def cleanPayload (p : String) : Bool := edgeClean p && p != "[DONE]"

/-! ## Helper lemmas about the embedded JS string built-ins -/

theorem mk_data (s : String) : String.mk s.data = s := rfl

theorem splitChars_ne_nil (sep : Char) (l : List Char) : splitChars sep l ≠ [] := by
  induction l with
  | nil => simp [splitChars]
  | cons c cs ih =>
    simp only [splitChars]
    split
    · simp
    · split
      · simp
      · simp

theorem splitChars_of_not_mem {sep : Char} {l : List Char} (h : sep ∉ l) :
    splitChars sep l = [l] := by
  induction l with
  | nil => rfl
  | cons c cs ih =>
    have hc : c ≠ sep := fun hc => h (hc ▸ List.mem_cons_self c cs)
    have hcs : sep ∉ cs := fun hcs => h (List.mem_cons_of_mem c hcs)
    simp only [splitChars, if_neg (fun hcc => hc hcc), ih hcs]

theorem splitChars_append {sep : Char} {xs : List Char} (ys : List Char) (h : sep ∉ xs) :
    splitChars sep (xs ++ sep :: ys) = xs :: splitChars sep ys := by
  induction xs with
  | nil => simp [splitChars]
  | cons c cs ih =>
    have hc : c ≠ sep := fun hc => h (hc ▸ List.mem_cons_self c cs)
    have hcs : sep ∉ cs := fun hcs => h (List.mem_cons_of_mem c hcs)
    simp only [List.cons_append, splitChars, if_neg (fun hcc => hc hcc)]
    rw [List.append_eq, ih hcs]

theorem jsSplit_two {p m : String} (hps : ('/' : Char) ∉ p.data)
    (hms : ('/' : Char) ∉ m.data) :
    jsSplit (p ++ "/" ++ m) '/' = [p, m] := by
  have hdata : (p ++ "/" ++ m).data = p.data ++ '/' :: m.data := by
    simp [String.data_append]
  unfold jsSplit
  rw [hdata, splitChars_append _ hps, splitChars_of_not_mem hms]
  simp [mk_data]

/-! ## C3 — identifier parsing -/

/-- **C3, counterexample.**  The claim states that for an identifier
`"p/m"` whose `p` is not a registered provider type, parsing returns
provider `null`.  `parseModelString` never consults the registry: on
`"foo/bar"` (where `"foo"` is not a registrable provider type — only
`openai` and `anthropic` are) it returns provider `some "foo"`, not
`null`. -/
theorem parseModelString_foo_bar_not_null :
    parseModelString "foo/bar" = ⟨some "foo", "bar"⟩ ∧
      (parseModelString "foo/bar").provider ≠ none := by
  constructor
  · decide
  · decide

/-- **C3, amended.**  For every identifier of the form `"p/m"` with `p`
and `m` non-empty and neither containing a further separator, parsing
returns provider `p` lowercased (regardless of what is registered — the
registry is not an input of `parseModelString`) and model `m` unchanged.
Parsing never throws for any input string: the embedding is a total
function, exactly as the JS method is total on string inputs. -/
theorem parseModelString_explicit (p m : String) (hp : p ≠ "") (hm : m ≠ "")
    (hps : ('/' : Char) ∉ p.data) (hms : ('/' : Char) ∉ m.data) :
    parseModelString (p ++ "/" ++ m) = ⟨some (jsToLower p), m⟩ := by
  have hdata : (p ++ "/" ++ m).data = p.data ++ '/' :: m.data := by
    simp [String.data_append]
  have hne : (p ++ "/" ++ m) ≠ "" := by
    intro h
    have h2 := congrArg String.data h
    rw [hdata] at h2
    simp at h2
  unfold parseModelString
  rw [if_neg hne]
  simp only [jsSplit_two hps hms]
  rw [if_pos]
  · simp [List.getD]
  · refine ⟨rfl, ?_, ?_⟩ <;> simpa [List.getD]

/-- **C3, witness** for the amended theorem at `p = "Foo"`, `m = "bar"`. -/
theorem parseModelString_explicit_witness :
    parseModelString ("Foo" ++ "/" ++ "bar") = ⟨some "foo", "bar"⟩ :=
  (parseModelString_explicit "Foo" "bar" (by decide) (by decide) (by decide)
    (by decide)).trans (by decide)

/-! ## C1 — proxy precedence in resolution -/

/-- **C1.**  If the requested identifier's model name (or the raw
identifier) is contained in some registered proxy's `models` set, and the
model name the resolver would otherwise use is claimed by a registered
provider (via the model-name prefix table or a provider's `supportsModel`
predicate), then `getProviderForModel` resolves to a registered proxy's
adapter and never to a provider instance: the proxy scan runs first and
short-circuits resolution. -/
theorem proxy_takes_precedence (L : LiteLLM) (s : String)
    (hproxy : ∃ cfg ∈ L.proxies,
      (parseModelString s).model ∈ cfg.models ∨ s ∈ cfg.models)
    (hprov : providerClaims L (jsOr (parseModelString s).model s) = true) :
    ∃ cfg ∈ L.proxies,
      (getProviderForModel L s).provider = some (Adapter.proxy cfg) ∧
      ∀ k p, (getProviderForModel L s).provider ≠ some (Adapter.registered k p) := by
  obtain ⟨cfg, hmem, hcase⟩ := hproxy
  have hpred : proxyMatches s (parseModelString s).model cfg = true := by
    unfold proxyMatches
    simp only [Bool.or_eq_true, List.contains_iff_exists_mem_beq]
    rcases hcase with h | h
    · exact Or.inl (Or.inl ⟨_, h, by simp⟩)
    · exact Or.inl (Or.inr ⟨_, h, by simp⟩)
  have hfind : (L.proxies.find? (proxyMatches s (parseModelString s).model)).isSome := by
    rw [List.find?_isSome]
    exact ⟨cfg, hmem, hpred⟩
  obtain ⟨cfg', hcfg'⟩ := Option.isSome_iff_exists.mp hfind
  have hmem' := List.mem_of_find?_eq_some hcfg'
  refine ⟨cfg', hmem', ?_, ?_⟩
  · simp [getProviderForModel, getProxyForModel, hcfg']
  · intro k p
    simp [getProviderForModel, getProxyForModel, hcfg']

/-- **C1, witness**: a registry where `"gpt-4"` is both in a proxy's model
set and claimed by the registered `openai` provider (prefix table and
`supportsModel`); resolution picks the proxy. -/
theorem proxy_takes_precedence_witness :
    ∃ cfg ∈ (⟨[("openai", .openai)], [⟨"px", ["gpt-4"], "http://p", [], none⟩],
        [("gpt-", "openai")]⟩ : LiteLLM).proxies,
      (getProviderForModel ⟨[("openai", .openai)],
        [⟨"px", ["gpt-4"], "http://p", [], none⟩], [("gpt-", "openai")]⟩ "gpt-4").provider
        = some (Adapter.proxy cfg) ∧
      ∀ k p, (getProviderForModel ⟨[("openai", .openai)],
        [⟨"px", ["gpt-4"], "http://p", [], none⟩], [("gpt-", "openai")]⟩ "gpt-4").provider
        ≠ some (Adapter.registered k p) :=
  proxy_takes_precedence _ "gpt-4" (by decide) (by decide)

/-! ## C2 — proxy model substitution -/

/-- **C2, counterexample.**  The claim states that a proxy registered with
a `proxyModel` value `X` always yields `X` as the outgoing model.  With the
registered value `X = ""` (a string value, but falsy in JS), the
`proxy.proxyModel || model` fallback in `getProxyForModel` (and the same
pattern in the proxy adapter's `completion`) silently uses the requested
model name `"m"` instead of the registered `""`. -/
theorem proxy_empty_proxyModel_not_substituted :
    (getProviderForModel ⟨[], [⟨"px", ["m"], "u", [], some ""⟩], []⟩ "m").actualModel = "m" ∧
    (getProviderForModel ⟨[], [⟨"px", ["m"], "u", [], some ""⟩], []⟩ "m").actualModel ≠ "" ∧
    proxyCompletionModel (some "") "m" = "m" := by
  refine ⟨by decide, by decide, by decide⟩

/-- **C2, amended.**  For the proxy selected by the registration-order scan
(the first whose model set matches): if it was registered with a
*non-empty* `proxyModel` value `X`, the outgoing (actual) model name is `X`
— both in the resolver's result and in the model the proxy adapter's
`completion` closure puts in the forwarded body — regardless of the
requested name; if it was registered without `proxyModel` (or with the
falsy empty string), the outgoing model name is the model name parsed from
the requested identifier, unchanged. -/
theorem proxy_model_substitution (L : LiteLLM) (s : String) (cfg : ProxyConfig)
    (hfind : L.proxies.find? (proxyMatches s (parseModelString s).model) = some cfg) :
    (∀ x, cfg.proxyModel = some x → x ≠ "" →
      getProxyForModel L s = some (Adapter.proxy cfg, x) ∧
      proxyCompletionModel cfg.proxyModel x = x) ∧
    ((cfg.proxyModel = none ∨ cfg.proxyModel = some "") →
      getProxyForModel L s = some (Adapter.proxy cfg, (parseModelString s).model) ∧
      proxyCompletionModel cfg.proxyModel (parseModelString s).model
        = (parseModelString s).model) := by
  constructor
  · intro x hx hne
    constructor
    · simp [getProxyForModel, hfind, jsOrOpt, hx, hne]
    · simp [proxyCompletionModel, jsOrOpt, hx, hne]
  · intro hcase
    rcases hcase with h | h <;>
      exact ⟨by simp [getProxyForModel, hfind, jsOrOpt, h],
        by simp [proxyCompletionModel, jsOrOpt, h]⟩

/-- **C2, witness**: the `deepseek` scenario from the spec — a proxy for
`["gpt-4-proxy"]` with `proxyModel: "deepseek-chat"` sends
`"deepseek-chat"` downstream. -/
theorem proxy_model_substitution_witness :
    getProxyForModel ⟨[], [⟨"ds", ["gpt-4-proxy"], "u", [], some "deepseek-chat"⟩], []⟩
        "gpt-4-proxy"
      = some (Adapter.proxy ⟨"ds", ["gpt-4-proxy"], "u", [], some "deepseek-chat"⟩,
          "deepseek-chat") ∧
    proxyCompletionModel (some "deepseek-chat") "deepseek-chat" = "deepseek-chat" :=
  (proxy_model_substitution _ "gpt-4-proxy" _ (by decide)).1 "deepseek-chat" rfl (by decide)

/-! ## C10 — provider registration -/

theorem find?_map_setkey (m : List (String × ProviderKind)) (k : String) (v : ProviderKind) :
    (m.map (fun e => if e.1 = k then (k, v) else e)).find? (fun e => e.1 = k) =
      if m.any (fun e => e.1 = k) then some (k, v) else none := by
  induction m with
  | nil => rfl
  | cons e m' ih =>
    by_cases he : e.1 = k
    · rw [List.map_cons, if_pos he, List.find?_cons_of_pos _ (by simp),
        List.any_cons, if_pos (by simp [he])]
    · rw [List.map_cons, if_neg he, List.find?_cons_of_neg _ (by simpa using he), ih,
        List.any_cons]
      congr 1
      simp [he]

theorem find?_map_setkey_ne (m : List (String × ProviderKind)) (k k' : String)
    (v : ProviderKind) (h : k' ≠ k) :
    (m.map (fun e => if e.1 = k then (k, v) else e)).find? (fun e => e.1 = k') =
      m.find? (fun e => e.1 = k') := by
  induction m with
  | nil => rfl
  | cons e m' ih =>
    by_cases he : e.1 = k
    · rw [List.map_cons, if_pos he,
        List.find?_cons_of_neg _ (by simpa using fun hk => h hk.symm),
        List.find?_cons_of_neg _ (by rw [he]; simpa using fun hk => h hk.symm), ih]
    · by_cases he' : e.1 = k'
      · rw [List.map_cons, if_neg he, List.find?_cons_of_pos _ (by simpa using he'),
          List.find?_cons_of_pos _ (by simpa using he')]
      · rw [List.map_cons, if_neg he, List.find?_cons_of_neg _ (by simpa using he'),
          List.find?_cons_of_neg _ (by simpa using he'), ih]

theorem lookupProvider_objInsert_self (m : List (String × ProviderKind)) (k : String)
    (v : ProviderKind) :
    lookupProvider (objInsert m k v) k = some v := by
  unfold objInsert lookupProvider
  by_cases hany : m.any (fun e => e.1 = k)
  · rw [if_pos hany, find?_map_setkey, if_pos hany]
    rfl
  · have hnone : m.find? (fun e => (e.1 = k : Bool)) = none := by
      rw [List.find?_eq_none]
      intro e he
      have he2 : ¬ e.1 = k := by
        intro hk
        exact hany (List.any_eq_true.mpr ⟨e, he, by simp [hk]⟩)
      simpa using he2
    rw [if_neg hany, List.find?_append, hnone]
    simp [List.find?_cons]

theorem lookupProvider_objInsert_ne (m : List (String × ProviderKind)) (k k' : String)
    (v : ProviderKind) (h : k' ≠ k) :
    lookupProvider (objInsert m k v) k' = lookupProvider m k' := by
  unfold objInsert lookupProvider
  by_cases hany : m.any (fun e => e.1 = k)
  · rw [if_pos hany, find?_map_setkey_ne m k k' v h]
  · rw [if_neg hany, List.find?_append,
      List.find?_cons_of_neg _ (by simpa using fun hk => h hk.symm),
      List.find?_nil]
    cases m.find? (fun e => (e.1 = k' : Bool)) <;> rfl

/-- **C10.**  `registerProvider` lowercases the type; for any type whose
lowercase form is neither `'openai'` nor `'anthropic'` it throws a
`LiteLLMError` with status 400 — the throw happens before the assignment
to `this.providers`, so the registry is unchanged (in this embedding a
throw produces no new state at all).  For the two supported types it
stores the freshly constructed provider under the lowercased key (leaving
every other key untouched) and returns it. -/
theorem registerProvider_spec (L : LiteLLM) (t : String) :
    (jsToLower t ≠ PROVIDER_TYPES_OPENAI → jsToLower t ≠ PROVIDER_TYPES_ANTHROPIC →
      ∃ e : LiteLLMError, registerProvider L t = .error e ∧ e.status = 400) ∧
    (jsToLower t = PROVIDER_TYPES_OPENAI →
      ∃ L', registerProvider L t = .ok (L', .openai) ∧
        lookupProvider L'.providers "openai" = some .openai ∧
        ∀ k, k ≠ "openai" → lookupProvider L'.providers k = lookupProvider L.providers k) ∧
    (jsToLower t = PROVIDER_TYPES_ANTHROPIC →
      ∃ L', registerProvider L t = .ok (L', .anthropic) ∧
        lookupProvider L'.providers "anthropic" = some .anthropic ∧
        ∀ k, k ≠ "anthropic" → lookupProvider L'.providers k = lookupProvider L.providers k) := by
  refine ⟨?_, ?_, ?_⟩
  · intro h1 h2
    exact ⟨⟨"Unsupported provider type: " ++ t, 400⟩,
      by simp [registerProvider, h1, h2], rfl⟩
  · intro h1
    refine ⟨{ L with providers := objInsert L.providers (jsToLower t) .openai },
      by simp [registerProvider, h1], ?_, ?_⟩
    · simpa [h1, PROVIDER_TYPES_OPENAI] using
        lookupProvider_objInsert_self L.providers (jsToLower t) .openai
    · intro k hk
      have := lookupProvider_objInsert_ne L.providers (jsToLower t) k .openai
        (by rw [h1]; exact hk)
      simpa using this
  · intro h1
    have h2 : jsToLower t ≠ PROVIDER_TYPES_OPENAI := by
      rw [h1]; decide
    refine ⟨{ L with providers := objInsert L.providers (jsToLower t) .anthropic },
      by simp [registerProvider, h1, h2, PROVIDER_TYPES_OPENAI, PROVIDER_TYPES_ANTHROPIC],
      ?_, ?_⟩
    · simpa [h1, PROVIDER_TYPES_ANTHROPIC] using
        lookupProvider_objInsert_self L.providers (jsToLower t) .anthropic
    · intro k hk
      have := lookupProvider_objInsert_ne L.providers (jsToLower t) k .anthropic
        (by rw [h1]; exact hk)
      simpa using this

/-- **C10, witness**: `"Cohere"` is rejected with status 400;
`"OpenAI"` (mixed case) is accepted and stored under `"openai"`. -/
theorem registerProvider_spec_witness :
    (∃ e : LiteLLMError, registerProvider ⟨[], [], []⟩ "Cohere" = .error e ∧ e.status = 400) ∧
    (∃ L', registerProvider ⟨[], [], []⟩ "OpenAI" = .ok (L', .openai) ∧
      lookupProvider L'.providers "openai" = some .openai ∧
      ∀ k, k ≠ "openai" →
        lookupProvider L'.providers k = lookupProvider (⟨[], [], []⟩ : LiteLLM).providers k) :=
  ⟨(registerProvider_spec ⟨[], [], []⟩ "Cohere").1 (by decide) (by decide),
   (registerProvider_spec ⟨[], [], []⟩ "OpenAI").2.1 (by decide)⟩

/-! ## C4 — system-message merging in the Anthropic request transform -/

/-- **C4 (code bug).**  The claim (and spec §4.2) requires every request
with one or more `system` messages to get them merged into the top-level
`system` field.  `_transformOptions` only sets `transformed.system` when
`systemMessages.length > 1`; `_transformMessages` removes `system`
messages from the outgoing sequence unconditionally (its local
`systemMessage` variable is never read).  Hence a request with exactly one
`system` message loses it entirely: it is removed from the messages and no
`system` field is produced.  This theorem evaluates the embedded transform
at the failing input `[{role: 'system', content: 'be brief'},
{role: 'user', content: 'hi'}]`. -/
theorem anthropic_single_system_message_dropped :
    ((⟨"claude-3", [⟨"system", "be brief", none, none⟩, ⟨"user", "hi", none, none⟩],
        false, none, none⟩ : CompletionOptions).messages.any
      (fun m => m.role == "system") = true) ∧
    ((transformOptions (fun _ => (none : Option Unit))
        ⟨"claude-3", [⟨"system", "be brief", none, none⟩, ⟨"user", "hi", none, none⟩],
          false, none, none⟩).toOption.map (fun r => r.system) = some none) ∧
    ((transformOptions (fun _ => (none : Option Unit))
        ⟨"claude-3", [⟨"system", "be brief", none, none⟩, ⟨"user", "hi", none, none⟩],
          false, none, none⟩).toOption.map
      (fun r => r.messages.any (fun m => m.role == "system")) = some false) := by
  refine ⟨by decide, by decide, by decide⟩

/-! ## C7/C8 — response conversion -/

theorem foldl_blockStep_none {J : Type} (stringify : J → String)
    (bs : List (AnthropicBlock J)) :
    bs.foldl (blockStep stringify) (none, none)
      = (lastTextBlock bs, lastToolUseBlock stringify bs) := by
  induction bs using List.reverseRecOn with
  | nil => rfl
  | append_singleton bs b ih =>
    rw [List.foldl_append, ih]
    cases b with
    | text t =>
      simp [blockStep, lastTextBlock, lastToolUseBlock, List.filterMap_append,
        List.getLast?_concat]
    | toolUse n i =>
      simp [blockStep, lastTextBlock, lastToolUseBlock, List.filterMap_append,
        List.getLast?_concat]
    | other tag =>
      simp [blockStep, lastTextBlock, lastToolUseBlock, List.filterMap_append]

theorem lastToolUseBlock_isSome_of_hasToolUse {J : Type} (stringify : J → String)
    {bs : List (AnthropicBlock J)} (h : hasToolUseBlock bs = true) :
    (lastToolUseBlock stringify bs).isSome = true := by
  rw [lastToolUseBlock, List.getLast?_isSome]
  intro hnil
  rw [List.filterMap_eq_nil_iff] at hnil
  obtain ⟨b, hmem, hb⟩ := List.any_eq_true.mp h
  have := hnil b hmem
  cases b <;> simp_all

/-- **C7, counterexample.**  The claim asserts `finish_reason =
"function_call"` for *every* response with a tool-use block and no text
block, but the converter derives `finish_reason` from `stop_reason` alone:
a response whose content is a single tool-use block but whose
`stop_reason` is `'end_turn'` converts with `finish_reason = "stop"`. -/
theorem anthropic_tool_only_response_stop :
    (hasToolUseBlock [AnthropicBlock.toolUse "get_weather" ()] = true) ∧
    (hasTextBlock [AnthropicBlock.toolUse "get_weather" ()] = false) ∧
    ((convertResponseToOpenAIFormat (fun _ => "{}")
        ⟨some [AnthropicBlock.toolUse "get_weather" ()], some "end_turn", none⟩
        ⟨"claude-3", [], false, none, none⟩).choices.map (fun c => c.finish_reason)
      = ["stop"]) ∧
    ("stop" ≠ "function_call") := by
  refine ⟨by decide, by decide, by decide, by decide⟩

/-- **C7, amended.**  For every Anthropic response whose content blocks
include a tool-use block and no text block, the canonical message has
`content = null` and `function_call` populated from the (last) tool-use
block — its tool name with `JSON.stringify`-ed input; `finish_reason` is
`"function_call"` exactly when the response's `stop_reason` is
`'tool_use'` (the mapping reads `stop_reason`, not the content blocks). -/
theorem anthropic_tool_only_response {J : Type} (stringify : J → String)
    (resp : AnthropicResponse J) (opts : CompletionOptions)
    (bs : List (AnthropicBlock J)) (hc : resp.content = some bs)
    (htool : hasToolUseBlock bs = true) (hnotext : hasTextBlock bs = false) :
    ((convertResponseToOpenAIFormat stringify resp opts).choices.map
        (fun c => c.message.content) = [none]) ∧
    ((convertResponseToOpenAIFormat stringify resp opts).choices.map
        (fun c => c.message.function_call) = [lastToolUseBlock stringify bs]) ∧
    ((lastToolUseBlock stringify bs).isSome = true) ∧
    ((convertResponseToOpenAIFormat stringify resp opts).choices.map
        (fun c => c.finish_reason) = ["function_call"] ↔
      resp.stop_reason = some "tool_use") := by
  have hsome := lastToolUseBlock_isSome_of_hasToolUse stringify htool
  obtain ⟨fc, hfc⟩ := Option.isSome_iff_exists.mp hsome
  unfold convertResponseToOpenAIFormat
  rw [hc]
  simp only [foldl_blockStep_none, hfc]
  refine ⟨by simp, by simp, by simp, ?_⟩
  constructor
  · intro hmap
    by_cases h1 : resp.stop_reason = some "tool_use"
    · exact h1
    · by_cases h2 : resp.stop_reason = some "max_tokens" <;> simp [h1, h2] at hmap
  · intro h1
    simp [h1]

/-- **C7, witness** for the amended theorem: tool-use-only content with
`stop_reason: 'tool_use'`. -/
theorem anthropic_tool_only_response_witness :
    ((convertResponseToOpenAIFormat (fun _ => "{}")
        (⟨some [AnthropicBlock.toolUse "get_weather" ()], some "tool_use", none⟩ :
          AnthropicResponse Unit)
        ⟨"claude-3", [], false, none, none⟩).choices.map
        (fun c => c.message.content) = [none]) ∧
    ((convertResponseToOpenAIFormat (fun _ => "{}")
        (⟨some [AnthropicBlock.toolUse "get_weather" ()], some "tool_use", none⟩ :
          AnthropicResponse Unit)
        ⟨"claude-3", [], false, none, none⟩).choices.map
        (fun c => c.message.function_call)
      = [lastToolUseBlock (fun _ => "{}") [AnthropicBlock.toolUse "get_weather" ()]]) ∧
    ((lastToolUseBlock (fun _ => "{}") [AnthropicBlock.toolUse "get_weather" ()]).isSome
      = true) ∧
    ((convertResponseToOpenAIFormat (fun _ => "{}")
        (⟨some [AnthropicBlock.toolUse "get_weather" ()], some "tool_use", none⟩ :
          AnthropicResponse Unit)
        ⟨"claude-3", [], false, none, none⟩).choices.map (fun c => c.finish_reason)
      = ["function_call"] ↔
      (⟨some [AnthropicBlock.toolUse "get_weather" ()], some "tool_use", none⟩ :
          AnthropicResponse Unit).stop_reason = some "tool_use") :=
  anthropic_tool_only_response (fun _ => "{}") _ _ _ rfl (by decide) (by decide)

/-- **C8, counterexample.**  The claim says the canonical content is the
*first* text block.  On content `[text "a", text "b"]` the converter's
loop overwrites `content` with each text block, so the canonical content
is the *last* one, `"b"`, not the first, `"a"`. -/
theorem anthropic_multi_text_keeps_last :
    (firstTextBlock [AnthropicBlock.text (J := Unit) "a", AnthropicBlock.text "b"]
      = some "a") ∧
    ((convertResponseToOpenAIFormat (fun _ => "{}")
        ⟨some [AnthropicBlock.text (J := Unit) "a", AnthropicBlock.text "b"], none, none⟩
        ⟨"claude-3", [], false, none, none⟩).choices.map (fun c => c.message.content)
      = [some "b"]) ∧
    ((some "b" : Option String) ≠ some "a") := by
  refine ⟨by decide, by decide, by decide⟩

/-- **C8, amended.**  For every Anthropic response whose content array
holds multiple blocks (in fact for any block list): `function_call` is
populated from the *last* tool-use block, and the canonical content is the
*last* text block when no tool-use block is present — and `null` when one
is (the converter nulls content alongside a function call). -/
theorem anthropic_multi_block_response {J : Type} (stringify : J → String)
    (resp : AnthropicResponse J) (opts : CompletionOptions)
    (bs : List (AnthropicBlock J)) (hc : resp.content = some bs)
    (hlen : 1 < bs.length) :
    ((convertResponseToOpenAIFormat stringify resp opts).choices.map
        (fun c => c.message.function_call) = [lastToolUseBlock stringify bs]) ∧
    ((convertResponseToOpenAIFormat stringify resp opts).choices.map
        (fun c => c.message.content) =
      [if (lastToolUseBlock stringify bs).isSome then none else lastTextBlock bs]) := by
  unfold convertResponseToOpenAIFormat
  rw [hc]
  simp only [foldl_blockStep_none]
  cases hfc : lastToolUseBlock stringify bs <;> simp [hfc]

/-- **C8, witness** for the amended theorem: three blocks —
`[text "a", tool_use f, text "b"]`. -/
theorem anthropic_multi_block_response_witness :
    ((convertResponseToOpenAIFormat (fun _ => "{}")
        (⟨some [AnthropicBlock.text "a", AnthropicBlock.toolUse "f" (),
          AnthropicBlock.text "b"], none, none⟩ : AnthropicResponse Unit)
        ⟨"claude-3", [], false, none, none⟩).choices.map
        (fun c => c.message.function_call)
      = [lastToolUseBlock (fun _ => "{}")
          [AnthropicBlock.text "a", AnthropicBlock.toolUse "f" (),
            AnthropicBlock.text "b"]]) ∧
    ((convertResponseToOpenAIFormat (fun _ => "{}")
        (⟨some [AnthropicBlock.text "a", AnthropicBlock.toolUse "f" (),
          AnthropicBlock.text "b"], none, none⟩ : AnthropicResponse Unit)
        ⟨"claude-3", [], false, none, none⟩).choices.map
        (fun c => c.message.content)
      = [if (lastToolUseBlock (fun _ => "{}")
            [AnthropicBlock.text "a", AnthropicBlock.toolUse "f" (),
              AnthropicBlock.text "b"]).isSome then none
         else lastTextBlock [AnthropicBlock.text "a", AnthropicBlock.toolUse "f" (),
           AnthropicBlock.text "b"]]) :=
  anthropic_multi_block_response (fun _ => "{}") _ _ _ rfl (by decide)

/-! ## C9 — stream-chunk conversion -/

/-- **C9, counterexample.**  The claim allows a non-null `finish_reason`
only on `content_block_stop` / `message_stop`.  A `content_block_delta`
event carrying a `tool_use` delta — a content delta, not a completion
signal — also gets `finish_reason: 'function_call'`. -/
theorem anthropic_tool_use_delta_sets_finish :
    ((convertStreamChunkToOpenAIFormat (fun _ => "{}")
        (AnthropicStreamEvent.contentBlockDelta
          (AnthropicDelta.toolUseDelta (J := Unit) (some "f") none))
        ⟨"claude-3", [], false, none, none⟩).choices.map (fun c => c.finish_reason)
      = [some "function_call"]) ∧
    ((some "function_call" : Option String) ≠ none) := by
  refine ⟨by decide, by decide⟩

/-- **C9, amended.**  Every converted chunk keeps the canonical envelope
(`object`, exactly one choice).  Its `finish_reason` is non-null exactly
when the event is `content_block_stop`, `message_stop`, **or a `tool_use`
content delta** (which the code maps to `finish_reason:
'function_call'`); all other events — including text deltas — yield a null
`finish_reason`, and an unrecognized event still emits the envelope with
an empty delta. -/
theorem anthropic_stream_finish_reason {J : Type} (stringify : J → String)
    (e : AnthropicStreamEvent J) (opts : CompletionOptions) :
    ((convertStreamChunkToOpenAIFormat stringify e opts).object
      = "chat.completion.chunk") ∧
    ((convertStreamChunkToOpenAIFormat stringify e opts).choices.length = 1) ∧
    ((convertStreamChunkToOpenAIFormat stringify e opts).choices.map
        (fun c => c.finish_reason) ≠ [none] ↔
      (e = .contentBlockStop ∨ e = .messageStop ∨
        ∃ n i, e = .contentBlockDelta (.toolUseDelta n i))) ∧
    (∀ tag, e = .otherEvent tag →
      (convertStreamChunkToOpenAIFormat stringify e opts).choices
        = [⟨0, ⟨none, none⟩, none⟩]) := by
  cases e with
  | contentBlockStart => simp [convertStreamChunkToOpenAIFormat]
  | contentBlockDelta d =>
    cases d with
    | textDelta t =>
      by_cases ht : t = "" <;> simp [convertStreamChunkToOpenAIFormat, ht]
    | toolUseDelta n i =>
      refine ⟨rfl, rfl,
        Iff.intro (fun _ => Or.inr (Or.inr ⟨n, i, rfl⟩)) (fun _ => ?_),
        fun tag h => by cases h⟩
      simp [convertStreamChunkToOpenAIFormat]
    | otherDelta tag => simp [convertStreamChunkToOpenAIFormat]
  | contentBlockStop => simp [convertStreamChunkToOpenAIFormat]
  | messageStop => simp [convertStreamChunkToOpenAIFormat]
  | otherEvent tag => simp [convertStreamChunkToOpenAIFormat]

/-! ## Decoder pipeline lemmas -/

theorem jsSplit_joinWithNewlines (ls : List String) (hne : ls ≠ [])
    (h : ∀ l ∈ ls, ('\n' : Char) ∉ l.data) :
    jsSplit (joinWithNewlines ls) '\n' = ls := by
  induction ls with
  | nil => exact absurd rfl hne
  | cons l ls ih =>
    cases ls with
    | nil =>
      show jsSplit (joinWithNewlines [l]) '\n' = [l]
      unfold joinWithNewlines jsSplit
      rw [splitChars_of_not_mem (h l (List.mem_cons_self l []))]
      simp [mk_data]
    | cons l' ls' =>
      have hjoin : joinWithNewlines (l :: l' :: ls')
          = l ++ "\n" ++ joinWithNewlines (l' :: ls') := rfl
      have hdata : (l ++ "\n" ++ joinWithNewlines (l' :: ls')).data
          = l.data ++ '\n' :: (joinWithNewlines (l' :: ls')).data := by
        simp [String.data_append]
      have ih' := ih (by simp) (fun x hx => h x (List.mem_cons_of_mem l hx))
      unfold jsSplit at ih' ⊢
      rw [hjoin, hdata, splitChars_append _ (h l (List.mem_cons_self l _))]
      simp only [List.map_cons, mk_data, ih']

theorem trimLeftChars_cons_of_not_ws {c : Char} (l : List Char)
    (hc : isJsWhitespace c = false) : trimLeftChars (c :: l) = c :: l := by
  simp [trimLeftChars, List.dropWhile_cons, hc]

theorem trimRightChars_eq_self {l : List Char}
    (h : ∀ d, l.getLast? = some d → isJsWhitespace d = false) :
    trimRightChars l = l := by
  rcases List.eq_nil_or_concat l with rfl | ⟨L, b, rfl⟩
  · rfl
  · have hb := h b (by rw [List.concat_eq_append]; exact List.getLast?_concat L)
    rw [List.concat_eq_append]
    simp [trimRightChars, List.reverse_append, List.dropWhile_cons, hb]

theorem jsTrim_eq_self {p : String}
    (hh : ∀ c, p.data.head? = some c → isJsWhitespace c = false)
    (hl : ∀ d, p.data.getLast? = some d → isJsWhitespace d = false) :
    jsTrim p = p := by
  unfold jsTrim
  rcases hd : p.data with _ | ⟨c, l⟩
  · rw [show trimLeftChars [] = [] from rfl, show trimRightChars [] = [] from rfl]
    exact String.ext (by rw [hd])
  · rw [trimLeftChars_cons_of_not_ws l (hh c (by rw [hd]; rfl))]
    rw [trimRightChars_eq_self (fun d hdl => hl d (by rw [hd]; exact hdl))]
    exact String.ext (by rw [hd])

theorem edgeClean_spec {p : String} (h : edgeClean p = true) :
    p ≠ "" ∧ jsTrim p = p ∧ ('\n' : Char) ∉ p.data ∧
      (∀ d, p.data.getLast? = some d → isJsWhitespace d = false) := by
  unfold edgeClean at h
  split at h
  case h_2 => cases h
  case h_1 c d hc hd =>
    rw [Bool.and_eq_true, Bool.and_eq_true] at h
    obtain ⟨⟨h1, h2⟩, h3⟩ := h
    have hws1 : isJsWhitespace c = false := by rwa [Bool.not_eq_true'] at h1
    have hws2 : isJsWhitespace d = false := by rwa [Bool.not_eq_true'] at h2
    have hcont : p.data.contains '\n' = false := by rwa [Bool.not_eq_true'] at h3
    refine ⟨?_, ?_, ?_, ?_⟩
    · intro hp
      rw [hp] at hc
      cases hc
    · exact jsTrim_eq_self
        (fun c' hc' => by
          rw [hc, Option.some.injEq] at hc'
          rw [← hc']
          exact hws1)
        (fun d' hd' => by
          rw [hd, Option.some.injEq] at hd'
          rw [← hd']
          exact hws2)
    · intro hmem
      have hcc : p.data.contains '\n' = true := by
        rw [List.contains_iff_exists_mem_beq]
        exact ⟨'\n', hmem, by simp⟩
      rw [hcc] at hcont
      cases hcont
    · intro d' hd'
      rw [hd, Option.some.injEq] at hd'
      rw [← hd']
      exact hws2

theorem dataLine_trim_id {p : String} (h : edgeClean p = true) :
    jsTrim ("data: " ++ p) = "data: " ++ p := by
  obtain ⟨hne, _, _, hlast⟩ := edgeClean_spec h
  have hdne : p.data ≠ [] := fun hd => hne (String.ext (by rw [hd]))
  rcases List.eq_nil_or_concat p.data with hnil | ⟨L, b, hconcat⟩
  · exact absurd hnil hdne
  · rw [List.concat_eq_append] at hconcat
    have hb : isJsWhitespace b = false :=
      hlast b (by simp [hconcat])
    apply jsTrim_eq_self
    · intro c hcc
      have hh : ("data: " ++ p).data.head? = some 'd' := by
        rw [String.data_append]
        rfl
      rw [hh, Option.some.injEq] at hcc
      rw [← hcc]
      rfl
    · intro d hdd
      rw [String.data_append, hconcat, ← List.append_assoc,
        List.getLast?_concat, Option.some.injEq] at hdd
      rw [← hdd]
      exact hb

theorem dataLine_pipeline {p : String} (h : edgeClean p = true) :
    jsStartsWith (jsTrim ("data: " ++ p)) "data:" = true ∧
    jsTrim (jsReplaceStart ("data: " ++ p) "data: ") = p := by
  obtain ⟨hne, htrim, hnl, hlast⟩ := edgeClean_spec h
  constructor
  · rw [dataLine_trim_id h]
    unfold jsStartsWith
    rw [List.isPrefixOf_iff_prefix, String.data_append]
    have h6 : "data: ".data = "data:".data ++ [' '] := by decide
    rw [h6, List.append_assoc]
    exact ⟨_, rfl⟩
  · have hsw : jsStartsWith ("data: " ++ p) "data: " = true := by
      unfold jsStartsWith
      rw [List.isPrefixOf_iff_prefix, String.data_append]
      exact ⟨_, rfl⟩
    unfold jsReplaceStart
    rw [if_pos hsw, String.data_append, List.drop_left, mk_data]
    exact htrim

theorem extractDataLines_join (ps : List String) (h : ∀ p ∈ ps, edgeClean p = true) :
    extractDataLines (joinWithNewlines (ps.map (fun p => "data: " ++ p))) = ps := by
  cases ps with
  | nil => rfl
  | cons p0 ps' =>
    have hnonl : ∀ l ∈ (p0 :: ps').map (fun p => "data: " ++ p), ('\n' : Char) ∉ l.data := by
      intro l hl
      obtain ⟨p, hp, rfl⟩ := List.mem_map.mp hl
      obtain ⟨_, _, hnl, _⟩ := edgeClean_spec (h p hp)
      rw [String.data_append, List.mem_append]
      rintro (hmem | hmem)
      · revert hmem
        decide
      · exact hnl hmem
    unfold extractDataLines
    rw [jsSplit_joinWithNewlines _ (by simp) hnonl]
    rw [List.filter_eq_self.mpr ?kept]
    case kept =>
      intro l hl
      obtain ⟨p, hp, rfl⟩ := List.mem_map.mp hl
      exact (dataLine_pipeline (h p hp)).1
    rw [List.map_map]
    have hmap : List.map ((fun l => jsTrim (jsReplaceStart l "data: ")) ∘
          fun p => "data: " ++ p) (p0 :: ps') = List.map id (p0 :: ps') :=
      List.map_congr_left (fun p hp => (dataLine_pipeline (h p hp)).2)
    rw [hmap, List.map_id]

theorem cleanPayload_spec {p : String} (h : cleanPayload p = true) :
    edgeClean p = true ∧ p ≠ "" ∧ p ≠ "[DONE]" := by
  rw [cleanPayload, Bool.and_eq_true] at h
  obtain ⟨h1, h2⟩ := h
  exact ⟨h1, (edgeClean_spec h1).1, by simpa using h2⟩

theorem decodeLines_valid {J : Type} (jparse : String → Option J)
    (pvs : List (String × J)) (rest : List String)
    (h : ∀ pv ∈ pvs, cleanPayload pv.1 = true ∧ jparse pv.1 = some pv.2) :
    decodeLines jparse (pvs.map Prod.fst ++ "[DONE]" :: rest) = pvs.map Prod.snd := by
  induction pvs with
  | nil => simp [decodeLines]
  | cons pv pvs ih =>
    obtain ⟨hc, hj⟩ := h pv (List.mem_cons_self pv pvs)
    obtain ⟨_, hne, hdone⟩ := cleanPayload_spec hc
    simp only [List.map_cons, List.cons_append, decodeLines, if_neg hdone, if_neg hne, hj]
    exact congrArg (List.cons pv.2) (ih (fun q hq => h q (List.mem_cons_of_mem pv hq)))

theorem decodeLinesAnthropic_valid {J : Type} (jparse : String → Option J)
    (pvs : List (String × J))
    (h : ∀ pv ∈ pvs, cleanPayload pv.1 = true ∧ jparse pv.1 = some pv.2) :
    decodeLinesAnthropic jparse (pvs.map Prod.fst) = pvs.map Prod.snd := by
  induction pvs with
  | nil => rfl
  | cons pv pvs ih =>
    obtain ⟨hc, hj⟩ := h pv (List.mem_cons_self pv pvs)
    obtain ⟨_, hne, hdone⟩ := cleanPayload_spec hc
    simp only [List.map_cons, decodeLinesAnthropic, if_neg hdone, if_neg hne, hj]
    exact congrArg (List.cons pv.2) (ih (fun q hq => h q (List.mem_cons_of_mem pv hq)))

theorem decodeLinesAnthropic_sentinel {J : Type} (jparse : String → Option J)
    (pvs qvs : List (String × J))
    (hp : ∀ pv ∈ pvs, cleanPayload pv.1 = true ∧ jparse pv.1 = some pv.2)
    (hq : ∀ pv ∈ qvs, cleanPayload pv.1 = true ∧ jparse pv.1 = some pv.2) :
    decodeLinesAnthropic jparse (pvs.map Prod.fst ++ "[DONE]" :: qvs.map Prod.fst)
      = pvs.map Prod.snd ++ qvs.map Prod.snd := by
  induction pvs with
  | nil =>
    simp only [List.map_nil, List.nil_append, decodeLinesAnthropic, if_pos rfl]
    exact decodeLinesAnthropic_valid jparse qvs hq
  | cons pv pvs ih =>
    obtain ⟨hc, hj⟩ := hp pv (List.mem_cons_self pv pvs)
    obtain ⟨_, hne, hdone⟩ := cleanPayload_spec hc
    simp only [List.map_cons, List.cons_append, decodeLinesAnthropic,
      if_neg hdone, if_neg hne, hj]
    exact congrArg (List.cons pv.2) (ih (fun q hqq => hp q (List.mem_cons_of_mem pv hqq)))

theorem decodeLines_mixed {J : Type} (jparse : String → Option J)
    (pvs : List (String × Option J))
    (h : ∀ pv ∈ pvs, cleanPayload pv.1 = true ∧ jparse pv.1 = pv.2) :
    decodeLines jparse (pvs.map Prod.fst) = pvs.filterMap Prod.snd := by
  induction pvs with
  | nil => rfl
  | cons pv pvs ih =>
    obtain ⟨hc, hj⟩ := h pv (List.mem_cons_self pv pvs)
    obtain ⟨_, hne, hdone⟩ := cleanPayload_spec hc
    have ih' := ih (fun q hq => h q (List.mem_cons_of_mem pv hq))
    cases ho : pv.2 with
    | none =>
      rw [ho] at hj
      simp only [List.map_cons, decodeLines, if_neg hdone, if_neg hne, hj,
        List.filterMap_cons, ho, ih']
    | some v =>
      rw [ho] at hj
      simp only [List.map_cons, decodeLines, if_neg hdone, if_neg hne, hj,
        List.filterMap_cons, ho, ih']

/-! ## C5 — decoder termination sentinel -/

/-- **C5, counterexample.**  On a fragment with one valid line, the
sentinel, and another valid line, the Anthropic provider's `_processChunk`
(claimed, like the others, to stop at the sentinel) yields **both**
objects: its loop `continue`s on `'[DONE]'` instead of returning.  The
registry/OpenAI decoder on the same fragment yields only the first. -/
theorem anthropic_decoder_ignores_sentinel :
    processChunkAnthropic
        (fun s => if s = "1" then some 1 else if s = "2" then some 2 else (none : Option Nat))
        "data: 1\ndata: [DONE]\ndata: 2" = [1, 2] ∧
    ([1, 2] : List Nat) ≠ [1] ∧
    processChunk
        (fun s => if s = "1" then some 1 else if s = "2" then some 2 else (none : Option Nat))
        "data: 1\ndata: [DONE]\ndata: 2" = [1] := by
  refine ⟨by decide, by decide, by decide⟩

/-- **C5, amended.**  For every fragment of N valid `data:`-prefixed JSON
lines, then the `data: [DONE]` sentinel, then any further valid data
lines: the registry (`LiteLLM`) and OpenAI decoders yield exactly the N
parsed objects in order and then stop — nothing after the sentinel is
yielded; the Anthropic provider's decoder, however, skips the sentinel
line and continues, additionally yielding the objects of the lines after
it. -/
theorem decoder_sentinel_stops {J : Type} (jparse : String → Option J)
    (pvs qvs : List (String × J))
    (hp : ∀ pv ∈ pvs, cleanPayload pv.1 = true ∧ jparse pv.1 = some pv.2)
    (hq : ∀ pv ∈ qvs, cleanPayload pv.1 = true ∧ jparse pv.1 = some pv.2) :
    processChunk jparse (joinWithNewlines
        ((pvs.map Prod.fst ++ "[DONE]" :: qvs.map Prod.fst).map
          (fun p => "data: " ++ p))) = pvs.map Prod.snd ∧
    processChunkAnthropic jparse (joinWithNewlines
        ((pvs.map Prod.fst ++ "[DONE]" :: qvs.map Prod.fst).map
          (fun p => "data: " ++ p)))
      = pvs.map Prod.snd ++ qvs.map Prod.snd := by
  have hclean : ∀ p ∈ pvs.map Prod.fst ++ "[DONE]" :: qvs.map Prod.fst,
      edgeClean p = true := by
    intro p hp'
    rcases List.mem_append.mp hp' with h' | h'
    · obtain ⟨pv, hpv, rfl⟩ := List.mem_map.mp h'
      exact (cleanPayload_spec (hp pv hpv).1).1
    · rcases List.mem_cons.mp h' with rfl | h''
      · decide
      · obtain ⟨pv, hpv, rfl⟩ := List.mem_map.mp h''
        exact (cleanPayload_spec (hq pv hpv).1).1
  have hex := extractDataLines_join _ hclean
  constructor
  · rw [processChunk, hex]
    exact decodeLines_valid jparse pvs _ hp
  · rw [processChunkAnthropic, hex]
    exact decodeLinesAnthropic_sentinel jparse pvs qvs hp hq

/-- **C5, witness** for the amended theorem with one valid line before and
one after the sentinel. -/
theorem decoder_sentinel_stops_witness :
    processChunk
        (fun s => if s = "1" then some 1 else if s = "2" then some 2 else (none : Option Nat))
        (joinWithNewlines
          (([("1", 1)].map Prod.fst ++ "[DONE]" :: [("2", 2)].map Prod.fst).map
            (fun p => "data: " ++ p))) = [("1", 1)].map Prod.snd ∧
    processChunkAnthropic
        (fun s => if s = "1" then some 1 else if s = "2" then some 2 else (none : Option Nat))
        (joinWithNewlines
          (([("1", 1)].map Prod.fst ++ "[DONE]" :: [("2", 2)].map Prod.fst).map
            (fun p => "data: " ++ p)))
      = [("1", 1)].map Prod.snd ++ [("2", 2)].map Prod.snd :=
  decoder_sentinel_stops
    (fun s => if s = "1" then some 1 else if s = "2" then some 2 else (none : Option Nat))
    [("1", 1)] [("2", 2)] (by decide) (by decide)

/-! ## C6 — decoder skips malformed lines -/

/-- **C6.**  A `data:`-prefixed line whose payload does not parse as JSON
(`jparse` returns `none`, modelling the caught `SyntaxError`) is skipped
without aborting decoding: the decoder yields exactly the successfully
parsed objects, in their original relative order. -/
theorem decoder_skips_invalid_lines {J : Type} (jparse : String → Option J)
    (pvs : List (String × Option J))
    (h : ∀ pv ∈ pvs, cleanPayload pv.1 = true ∧ jparse pv.1 = pv.2) :
    processChunk jparse (joinWithNewlines
        ((pvs.map Prod.fst).map (fun p => "data: " ++ p)))
      = pvs.filterMap Prod.snd := by
  have hclean : ∀ p ∈ pvs.map Prod.fst, edgeClean p = true := by
    intro p hp'
    obtain ⟨pv, hpv, rfl⟩ := List.mem_map.mp hp'
    exact (cleanPayload_spec (h pv hpv).1).1
  rw [processChunk, extractDataLines_join _ hclean]
  exact decodeLines_mixed jparse pvs h

/-- **C6, witness**: 3 valid + 1 invalid + 2 valid lines yield exactly the
5 valid objects in order. -/
theorem decoder_skips_invalid_lines_witness :
    processChunk
        (fun s => if s = "1" then some 1 else if s = "2" then some 2
          else if s = "3" then some 3 else if s = "4" then some 4
          else if s = "5" then some 5 else (none : Option Nat))
        (joinWithNewlines
          (([("1", some 1), ("2", some 2), ("3", some 3), ("oops", none),
            ("4", some 4), ("5", some 5)].map Prod.fst).map (fun p => "data: " ++ p)))
      = [("1", some 1), ("2", some 2), ("3", some 3), ("oops", (none : Option Nat)),
          ("4", some 4), ("5", some 5)].filterMap Prod.snd :=
  decoder_skips_invalid_lines
    (fun s => if s = "1" then some 1 else if s = "2" then some 2
      else if s = "3" then some 3 else if s = "4" then some 4
      else if s = "5" then some 5 else (none : Option Nat))
    [("1", some 1), ("2", some 2), ("3", some 3), ("oops", none),
      ("4", some 4), ("5", some 5)] (by decide)

/-- **C9, witness**: an unrecognized `'ping'` event still emits the
envelope with an empty delta and null `finish_reason`. -/
theorem anthropic_stream_finish_reason_witness :
    (convertStreamChunkToOpenAIFormat (fun _ : Unit => "{}")
        (AnthropicStreamEvent.otherEvent "ping")
        ⟨"claude-3", [], false, none, none⟩).choices
      = [⟨0, ⟨none, none⟩, none⟩] :=
  (anthropic_stream_finish_reason (fun _ : Unit => "{}")
    (AnthropicStreamEvent.otherEvent "ping")
    ⟨"claude-3", [], false, none, none⟩).2.2.2 "ping" rfl

end LitellmJs
